import Mathlib

/-!
Verification of the goad-balancer routing gateway.

The embedding models strings as `String` (lists of characters) over the
ASCII range, which is the range the spec scopes canonicalization to
("ASCII case-folding is sufficient; no internationalized domain handling
required").  Go's `strings.ToLower` is modelled by `Char.toLower`
character-wise, `strings.TrimSpace` by trimming Go's ASCII space set
`"\t\n\v\f\r "` from both ends, and `strings.Trim(s, "[]")` by trimming
the cutset `{'[', ']'}` from both ends.  `net.SplitHostPort` is
translated from the Go standard library's implementation in
`net/ipsock.go`.
-/

namespace GoadBalancer

/-- Go `strings.TrimSpace` ASCII space set: `"\t\n\v\f\r "`. -/
def isSpaceChar (c : Char) : Bool :=
  c = ' ' || c = '\t' || c = '\n' || c = '\x0b' || c = '\x0c' || c = '\r'

/-- Characters of the cutset `"[]"` used by `strings.Trim(host, "[]")`. -/
def isBracketChar (c : Char) : Bool :=
  c = '[' || c = ']'

/-- Drop the maximal run of characters satisfying `p` from the END of the
list.  Behavioural model of Go `strings.TrimRight`. -/
def dropLastWhile (p : Char → Bool) : List Char → List Char
  | [] => []
  | c :: cs =>
    match dropLastWhile p cs with
    | [] => if p c then [] else [c]
    | r => c :: r

/-- Go `strings.Trim(s, cutset)`: remove the maximal leading and trailing
runs of cutset characters. -/
def trimCut (p : Char → Bool) (s : List Char) : List Char :=
  dropLastWhile p (s.dropWhile p)

/-- Index (counting from `i`) of the first character satisfying `p`. -/
def idxFrom (p : Char → Bool) : Nat → List Char → Option Nat
  | _, [] => none
  | i, c :: cs => if p c then some i else idxFrom p (i + 1) cs

/-- Go `byteIndex(s, c)`: index of the first occurrence of `c`. -/
def firstIdxOf (c : Char) (s : List Char) : Option Nat :=
  idxFrom (fun x => x = c) 0 s

/-- Go `last(s, c)` (from `net/ipsock.go`): index of the last occurrence
of `c`, as an `Option` instead of `-1` for absence. -/
def lastIdxOf (c : Char) (s : List Char) : Option Nat :=
  match idxFrom (fun x => x = c) 0 s.reverse with
  | none => none
  | some r => some (s.length - 1 - r)

/-- Go `net.SplitHostPort` from `net/ipsock.go`, with `none` standing for
the error returns and `some (host, port)` for success. -/
def splitHostPort (s : List Char) : Option (List Char × List Char) :=
  match lastIdxOf ':' s with
  | none => none
  | some i =>
    if s.head? = some '[' then
      match firstIdxOf ']' s with
      | none => none
      | some e =>
        if e + 1 = s.length then none
        else if e + 1 = i then
          if (s.drop 1).contains '[' then none
          else if (s.drop (e + 1)).contains ']' then none
          else some ((s.take e).drop 1, s.drop (i + 1))
        else none
    else
      if (s.take i).contains ':' then none
      else if s.contains '[' then none
      else if s.contains ']' then none
      else some (s.take i, s.drop (i + 1))

/-- The trimmed, lowercased form of the input: the value of `h` in
`canonicalHost` after `h = strings.TrimSpace(strings.ToLower(h))`. -/
def preCanon (s : List Char) : List Char :=
  trimCut isSpaceChar (s.map Char.toLower)

/-- `canonicalHost` from `cmd/api/main.go`, on lists of characters
(`preCanon s` is the Go local `h` after trimming and lowercasing). -/
def canonList (s : List Char) : List Char :=
  if preCanon s = [] then []
  else
    match splitHostPort (preCanon s) with
    | some (host, _) => trimCut isBracketChar host
    | none => trimCut isBracketChar (preCanon s)

/-- `canonicalHost` from `cmd/api/main.go`. -/
def canonicalHost (s : String) : String :=
  ⟨canonList s.data⟩

/-- The host value just before the final `strings.Trim(·, "[]")` step of
`canonicalHost`: the trimmed, lowercased input with the port split off
when `net.SplitHostPort` succeeds. -/
def hostBeforeBracketTrim (s : String) : String :=
  match splitHostPort (preCanon s.data) with
  | some (host, _) => ⟨host⟩
  | none => ⟨preCanon s.data⟩

/-- The route table literal `hostRoutes` from `newHandler`. -/
def hostRoutes : List (String × String) :=
  [("mango.com", "site-mango"), ("apple.com", "site-apple")]

/-- Go map lookup `hostRoutes[host]`, as an association-list lookup
(the literal map has distinct keys, so order is immaterial). -/
def lookupRoute (k : String) : Option String :=
  (hostRoutes.find? (fun p => p.1 == k)).map (fun p => p.2)

/-- Routing outcome of the `GET /` handler body: `found key route` when
the canonical host is mapped, `notFound` otherwise. -/
inductive RoutingOutcome where
  | found : String → String → RoutingOutcome
  | notFound : RoutingOutcome
deriving DecidableEq

/-- The resolution logic of the `GET /` handler in `newHandler`:
`host := canonicalHost(r.Host)`, then the map lookup. -/
def resolve (raw : String) : RoutingOutcome :=
  let host := canonicalHost raw
  match lookupRoute host with
  | some r => .found host r
  | none => .notFound

/-- An HTTP response: status code and body text. -/
structure GatewayResponse where
  status : Nat
  body : String
deriving DecidableEq

/-- Go 1.22 `ServeMux` method patterns: a `GET` pattern matches both GET
and HEAD requests. -/
def isGetLike (method : String) : Bool :=
  method == "GET" || method == "HEAD"

/-- `encoding/json` output for `hostResponse{Host: host, Route: route}`
(struct fields in declaration order; `Encoder.Encode` appends a newline). -/
def encodeHostResponse (host route : String) : String :=
  "\x7b\"host\":\"" ++ host ++ "\",\"route\":\"" ++ route ++ "\"\x7d\n"

/-- `encoding/json` output for `healthResponse{Status: "ok", Time: now}`. -/
def encodeHealthResponse (now : String) : String :=
  "\x7b\"status\":\"ok\",\"time\":\"" ++ now ++ "\"\x7d\n"

/-- The gateway's `ServeMux` from `newHandler`, with patterns
`GET /health` (exact path) and `GET /` (subtree: matches every path).
A path that matches a registered pattern with the wrong method yields the
mux's 405 response; since `GET /` matches every path, every request path
matches some pattern.  `now` stands for the request-time timestamp used
by the health handler. -/
def serveGateway (method path host now : String) : GatewayResponse :=
  if path = "/health" then
    if isGetLike method then ⟨200, encodeHealthResponse now⟩
    else ⟨405, "Method Not Allowed\n"⟩
  else
    if isGetLike method then
      match resolve host with
      | .found k r => ⟨200, encodeHostResponse k r⟩
      | .notFound => ⟨404, "404 page not found\n"⟩
    else ⟨405, "Method Not Allowed\n"⟩

/-- Response of the Identity Echo Service process: HTTP status, response
body, and what the handler writes to the process's standard output. -/
structure EchoResponse where
  status : Nat
  body : String
  stdout : String
deriving DecidableEq

/-- `appName` computation in the echo service's `main`: the `APP`
environment variable (empty when unset), defaulting to `"unknown"`. -/
def appNameOf (env : String) : String :=
  if env = "" then "unknown" else env

/-- The echo service's `GET /` handler: its body calls
`fmt.Printf("This is the %s application", appName)`, which writes to the
process's standard output and writes nothing to the `http.ResponseWriter`,
so the HTTP response is an implicit 200 with an empty body.  Non-GET/HEAD
methods get the mux's 405. -/
def serveEcho (appName method _path : String) : EchoResponse :=
  if isGetLike method then
    ⟨200, "", "This is the " ++ appName ++ " application"⟩
  else ⟨405, "Method Not Allowed\n", ""⟩

/-- Modelled from the spec (claim wording, for comparison): strip exactly
one pair of surrounding `[` and `]` brackets, and only when that
surrounding pair is present. -/
def stripOnePairSpec (s : List Char) : List Char :=
  if s.head? = some '[' ∧ s.getLast? = some ']' then (s.drop 1).dropLast
  else s

theorem isUpper_iff (c : Char) : c.isUpper = true ↔ 65 ≤ c.toNat ∧ c.toNat ≤ 90 := by
  show (decide (c.val ≥ 65) && decide (c.val ≤ 90)) = true ↔ _
  rw [Bool.and_eq_true, decide_eq_true_iff, decide_eq_true_iff]
  exact Iff.rfl

theorem toNat_ofNat_valid (n : Nat) (h : n.isValidChar) : (Char.ofNat n).toNat = n := by
  simp only [Char.ofNat, dif_pos h, Char.ofNatAux, Char.toNat]
  simp [UInt32.toNat]

theorem toLower_not_upper (c : Char) : (Char.toLower c).isUpper = false := by
  unfold Char.toLower
  simp only []
  by_cases h : c.toNat ≥ 65 ∧ c.toNat ≤ 90
  · rw [if_pos h]
    have hv : (c.toNat + 32).isValidChar := Or.inl (by omega)
    rw [Bool.eq_false_iff]
    intro hup
    rw [isUpper_iff, toNat_ofNat_valid _ hv] at hup
    omega
  · rw [if_neg h]
    rw [Bool.eq_false_iff]
    intro hup
    rw [isUpper_iff] at hup
    exact h ⟨hup.1, hup.2⟩

theorem toLower_eq_self (c : Char) (h : c.isUpper = false) : Char.toLower c = c := by
  unfold Char.toLower
  simp only []
  rw [if_neg]
  intro hc
  rw [Bool.eq_false_iff] at h
  exact h (isUpper_iff c |>.mpr ⟨hc.1, hc.2⟩)

theorem head?_dropWhile_not (p : Char → Bool) (l : List Char) (c : Char)
    (h : (l.dropWhile p).head? = some c) : p c = false := by
  induction l with
  | nil => simp at h
  | cons a as ih =>
    rw [List.dropWhile_cons] at h
    by_cases hp : p a
    · rw [if_pos hp] at h; exact ih h
    · rw [if_neg hp] at h
      simp at h
      rw [h] at hp
      exact Bool.eq_false_iff.mpr hp

theorem dropWhile_eq_self_of (p : Char → Bool) (l : List Char)
    (h : ∀ c, l.head? = some c → p c = false) : l.dropWhile p = l := by
  cases l with
  | nil => rfl
  | cons a as =>
    rw [List.dropWhile_cons, if_neg]
    simp [h a rfl]

theorem mem_dropLastWhile (p : Char → Bool) (l : List Char) (c : Char)
    (h : c ∈ dropLastWhile p l) : c ∈ l := by
  induction l with
  | nil => simp [dropLastWhile] at h
  | cons a as ih =>
    rw [dropLastWhile] at h
    rcases hm : dropLastWhile p as with _ | ⟨r, rs⟩
    · rw [hm] at h
      by_cases hp : p a
      · simp [if_pos hp] at h
      · rw [if_neg hp] at h
        simp at h
        simp [h]
    · rw [hm] at h
      rcases List.mem_cons.mp h with h1 | h2
      · simp [h1]
      · exact List.mem_cons_of_mem a (ih (by rw [hm]; exact h2))

theorem head?_dropLastWhile (p : Char → Bool) (l : List Char) (c : Char)
    (h : (dropLastWhile p l).head? = some c) : l.head? = some c := by
  cases l with
  | nil => simp [dropLastWhile] at h
  | cons a as =>
    rw [dropLastWhile] at h
    rcases hm : dropLastWhile p as with _ | ⟨r, rs⟩
    · rw [hm] at h
      by_cases hp : p a
      · simp [if_pos hp] at h
      · rw [if_neg hp] at h
        simp at h
        simp [h]
    · rw [hm] at h
      simp at h
      simp [h]

theorem getLast?_dropLastWhile_not (p : Char → Bool) (l : List Char) (c : Char)
    (h : (dropLastWhile p l).getLast? = some c) : p c = false := by
  induction l with
  | nil => simp [dropLastWhile] at h
  | cons a as ih =>
    rw [dropLastWhile] at h
    rcases hm : dropLastWhile p as with _ | ⟨r, rs⟩
    · rw [hm] at h
      by_cases hp : p a
      · simp [if_pos hp] at h
      · rw [if_neg hp] at h
        simp at h
        rw [h] at hp
        exact Bool.eq_false_iff.mpr hp
    · rw [hm] at h
      rw [List.getLast?_cons_cons] at h
      exact ih (by rw [hm]; exact h)

theorem dropLastWhile_eq_self_of (p : Char → Bool) (l : List Char)
    (h : ∀ c, l.getLast? = some c → p c = false) : dropLastWhile p l = l := by
  induction l with
  | nil => rfl
  | cons a as ih =>
    rw [dropLastWhile]
    cases as with
    | nil =>
      simp [dropLastWhile]
      exact h a (by simp)
    | cons b bs =>
      have hrec : dropLastWhile p (b :: bs) = b :: bs := by
        apply ih
        intro c hc
        exact h c (by rw [List.getLast?_cons_cons]; exact hc)
      rw [hrec]

theorem dropLastWhile_append (p : Char → Bool) (l : List Char) :
    ∃ r, l = dropLastWhile p l ++ r ∧ ∀ c ∈ r, p c = true := by
  induction l with
  | nil => exact ⟨[], rfl, by simp⟩
  | cons a as ih =>
    obtain ⟨r, hr, hrp⟩ := ih
    rw [dropLastWhile]
    rcases hm : dropLastWhile p as with _ | ⟨b, bs⟩
    · rw [hm] at hr
      simp at hr
      by_cases hp : p a
      · rw [if_pos hp]
        refine ⟨a :: as, by simp, ?_⟩
        intro c hc
        rcases List.mem_cons.mp hc with h1 | h2
        · rw [h1]; exact hp
        · exact hrp c (hr ▸ h2)
      · rw [if_neg hp]
        refine ⟨r, ?_, hrp⟩
        simpa using hr
    · rw [hm] at hr
      exact ⟨r, by rw [List.cons_append, ← hr], hrp⟩

theorem mem_trimCut (p : Char → Bool) (l : List Char) (c : Char)
    (h : c ∈ trimCut p l) : c ∈ l :=
  (List.dropWhile_sublist p).mem (mem_dropLastWhile p _ c h)

theorem trimCut_head_not (p : Char → Bool) (l : List Char) (c : Char)
    (h : (trimCut p l).head? = some c) : p c = false :=
  head?_dropWhile_not p l c (head?_dropLastWhile p _ c h)

theorem trimCut_getLast_not (p : Char → Bool) (l : List Char) (c : Char)
    (h : (trimCut p l).getLast? = some c) : p c = false :=
  getLast?_dropLastWhile_not p _ c h

theorem trimCut_eq_self_of (p : Char → Bool) (l : List Char)
    (h1 : ∀ c, l.head? = some c → p c = false)
    (h2 : ∀ c, l.getLast? = some c → p c = false) : trimCut p l = l := by
  unfold trimCut
  rw [dropWhile_eq_self_of p l h1]
  exact dropLastWhile_eq_self_of p l h2

theorem trimCut_decomp (p : Char → Bool) (l : List Char) :
    ∃ pre post, (∀ c ∈ pre, p c = true) ∧ (∀ c ∈ post, p c = true) ∧
      l = pre ++ trimCut p l ++ post := by
  obtain ⟨r, hr, hrp⟩ := dropLastWhile_append p (l.dropWhile p)
  have hr' : l.dropWhile p = trimCut p l ++ r := hr
  refine ⟨l.takeWhile p, r, fun c hc => List.mem_takeWhile_imp hc, hrp, ?_⟩
  calc l = l.takeWhile p ++ l.dropWhile p := (List.takeWhile_append_dropWhile p l).symm
    _ = l.takeWhile p ++ (trimCut p l ++ r) := by rw [← hr']
    _ = l.takeWhile p ++ trimCut p l ++ r := by rw [List.append_assoc]

theorem idxFrom_eq_none_of (p : Char → Bool) (l : List Char)
    (h : ∀ c ∈ l, p c = false) : ∀ i, idxFrom p i l = none := by
  induction l with
  | nil => intro i; rfl
  | cons a as ih =>
    intro i
    rw [idxFrom, if_neg]
    · exact ih (fun c hc => h c (List.mem_cons_of_mem a hc)) (i + 1)
    · rw [h a (by simp)]
      simp

theorem lastIdxOf_eq_none_of (c : Char) (s : List Char) (h : c ∉ s) :
    lastIdxOf c s = none := by
  have hall : ∀ x ∈ s.reverse, (fun x => decide (x = c)) x = false := by
    intro x hx
    simp only [decide_eq_false_iff_not]
    intro he
    exact h (he ▸ List.mem_reverse.mp hx)
  unfold lastIdxOf
  rw [idxFrom_eq_none_of _ _ hall 0]

theorem splitHostPort_eq_none_of_no_colon (s : List Char) (h : ':' ∉ s) :
    splitHostPort s = none := by
  unfold splitHostPort
  rw [lastIdxOf_eq_none_of ':' s h]

theorem splitHostPort_host_cases (s host port : List Char)
    (hsp : splitHostPort s = some (host, port)) :
    (∃ e, host = (s.take e).drop 1) ∨ ∃ i, host = s.take i := by
  unfold splitHostPort at hsp
  repeat' split at hsp
  all_goals simp only [Option.some.injEq, Prod.mk.injEq, reduceCtorEq] at hsp
  · exact Or.inl ⟨_, hsp.1.symm⟩
  · exact Or.inr ⟨_, hsp.1.symm⟩

theorem splitHostPort_host_mem (s host port : List Char) (c : Char)
    (hsp : splitHostPort s = some (host, port)) (hc : c ∈ host) : c ∈ s := by
  rcases splitHostPort_host_cases s host port hsp with ⟨e, he⟩ | ⟨i, hi⟩
  · rw [he] at hc
    exact (List.take_sublist e s).mem ((List.drop_sublist 1 (s.take e)).mem hc)
  · rw [hi] at hc
    exact (List.take_sublist i s).mem hc

theorem mem_canonList (s : List Char) (c : Char) (h : c ∈ canonList s) :
    c ∈ preCanon s := by
  unfold canonList at h
  by_cases hp : preCanon s = []
  · rw [if_pos hp] at h
    simp at h
  · rw [if_neg hp] at h
    rcases hsp : splitHostPort (preCanon s) with _ | ⟨host, port⟩
    · rw [hsp] at h
      exact mem_trimCut _ _ _ h
    · rw [hsp] at h
      exact splitHostPort_host_mem _ _ _ _ hsp (mem_trimCut _ _ _ h)

theorem canonList_not_upper (s : List Char) (c : Char) (h : c ∈ canonList s) :
    c.isUpper = false := by
  have h2 : c ∈ s.map Char.toLower := mem_trimCut _ _ _ (mem_canonList s c h)
  obtain ⟨d, _, hd⟩ := List.mem_map.mp h2
  rw [← hd]
  exact toLower_not_upper d

theorem canonList_head_not_bracket (s : List Char) (c : Char)
    (h : (canonList s).head? = some c) : isBracketChar c = false := by
  unfold canonList at h
  by_cases hp : preCanon s = []
  · rw [if_pos hp] at h
    simp at h
  · rw [if_neg hp] at h
    rcases hsp : splitHostPort (preCanon s) with _ | ⟨host, port⟩ <;> rw [hsp] at h
    · exact trimCut_head_not _ _ _ h
    · exact trimCut_head_not _ _ _ h

theorem canonList_getLast_not_bracket (s : List Char) (c : Char)
    (h : (canonList s).getLast? = some c) : isBracketChar c = false := by
  unfold canonList at h
  by_cases hp : preCanon s = []
  · rw [if_pos hp] at h
    simp at h
  · rw [if_neg hp] at h
    rcases hsp : splitHostPort (preCanon s) with _ | ⟨host, port⟩ <;> rw [hsp] at h
    · exact trimCut_getLast_not _ _ _ h
    · exact trimCut_getLast_not _ _ _ h

theorem map_toLower_eq_self (l : List Char) (h : ∀ c ∈ l, c.isUpper = false) :
    l.map Char.toLower = l := by
  induction l with
  | nil => rfl
  | cons a as ih =>
    rw [List.map_cons, toLower_eq_self a (h a (by simp)),
      ih (fun c hc => h c (List.mem_cons_of_mem a hc))]

theorem canonList_eq_trim_hostBefore (x : String) :
    (canonicalHost x).data = trimCut isBracketChar (hostBeforeBracketTrim x).data := by
  show canonList x.data = _
  unfold canonList hostBeforeBracketTrim
  by_cases hp : preCanon x.data = []
  · rw [if_pos hp]
    rcases hsp : splitHostPort (preCanon x.data) with _ | ⟨host, port⟩
    · rw [hp]
      rfl
    · rw [hp] at hsp
      rw [splitHostPort_eq_none_of_no_colon [] (by simp)] at hsp
      exact absurd hsp (by simp)
  · rw [if_neg hp]
    rcases hsp : splitHostPort (preCanon x.data) with _ | ⟨host, port⟩ <;> rfl

/-- Claim C1, counterexample: the canonicalizer is not idempotent.  On
`"[a:1]"` the first pass fails host-port parsing (the `']'` is last, so
there is no port after it) and bracket-trimming yields `"a:1"`; the second
pass then successfully splits `"a:1"` into host `"a"` and port `"1"`. -/
theorem canonicalize_not_idempotent_cex :
    canonicalHost (canonicalHost "[a:1]") ≠ canonicalHost "[a:1]" := by decide

/-- Claim C1, amended: `canonicalHost` is idempotent on every input whose
output contains no colon and carries no leading or trailing whitespace
(bracket-trimming can expose an inner colon or inner whitespace, which a
second pass then processes differently). -/
theorem canonicalize_idempotent_amended (x : String)
    (h1 : ':' ∉ (canonicalHost x).data)
    (h2 : trimCut isSpaceChar (canonicalHost x).data = (canonicalHost x).data) :
    canonicalHost (canonicalHost x) = canonicalHost x := by
  have hupper : ∀ c ∈ (canonicalHost x).data, c.isUpper = false :=
    fun c hc => canonList_not_upper x.data c hc
  have hpre : preCanon (canonicalHost x).data = (canonicalHost x).data := by
    unfold preCanon
    rw [map_toLower_eq_self _ hupper]
    exact h2
  show (⟨canonList (canonicalHost x).data⟩ : String) = canonicalHost x
  have hcl : canonList (canonicalHost x).data = (canonicalHost x).data := by
    unfold canonList
    rw [hpre]
    by_cases hz : (canonicalHost x).data = []
    · rw [if_pos hz, hz]
    · rw [if_neg hz, splitHostPort_eq_none_of_no_colon _ h1]
      exact trimCut_eq_self_of _ _
        (fun c hc => canonList_head_not_bracket x.data c hc)
        (fun c hc => canonList_getLast_not_bracket x.data c hc)
  rw [hcl]

/-- Claim C1, witness for the amended theorem at `"mango.com:8080"`. -/
theorem canonicalize_idempotent_amended_witness :
    ':' ∉ (canonicalHost "mango.com:8080").data ∧
    trimCut isSpaceChar (canonicalHost "mango.com:8080").data =
      (canonicalHost "mango.com:8080").data ∧
    canonicalHost (canonicalHost "mango.com:8080") = canonicalHost "mango.com:8080" :=
  ⟨by decide, by decide,
    canonicalize_idempotent_amended "mango.com:8080" (by decide) (by decide)⟩

/-- Claim C2: the canonicalizer maps the six spec edge cases to exactly
the stated outputs. -/
theorem canonicalize_edge_cases :
    canonicalHost "MANGO.COM" = "mango.com" ∧
    canonicalHost "mango.com:8080" = "mango.com" ∧
    canonicalHost "[::1]:8080" = "::1" ∧
    canonicalHost "[::1]" = "::1" ∧
    canonicalHost "   " = "" ∧
    canonicalHost "" = "" :=
  ⟨rfl, rfl, rfl, rfl, rfl, rfl⟩

/-- Claim C3: `resolve` returns `notFound` exactly when the canonical key
is empty or unmapped (the empty key is never in the route table), and
otherwise returns `found` with the canonical key and the looked-up
route identifier. -/
theorem resolve_notFound_iff (raw : String) :
    (resolve raw = .notFound ↔
      canonicalHost raw = "" ∨ lookupRoute (canonicalHost raw) = none) ∧
    ∀ r, lookupRoute (canonicalHost raw) = some r →
      resolve raw = .found (canonicalHost raw) r := by
  have hempty : lookupRoute "" = none := by decide
  rcases h : lookupRoute (canonicalHost raw) with _ | r
  · have hres : resolve raw = .notFound := by
      unfold resolve
      dsimp only
      rw [h]
    exact ⟨⟨fun _ => Or.inr rfl, fun _ => hres⟩, fun r' hr' => absurd hr' (by simp)⟩
  · have hres : resolve raw = .found (canonicalHost raw) r := by
      unfold resolve
      dsimp only
      rw [h]
    constructor
    · constructor
      · intro hf
        rw [hres] at hf
        exact absurd hf (by simp)
      · rintro (he | hn)
        · rw [he, hempty] at h
          exact absurd h (by simp)
        · exact absurd hn (by simp)
    · intro r' hr'
      rw [Option.some.injEq] at hr'
      rw [← hr']
      exact hres

/-- Claim C3, witness at `"MANGO.COM"`. -/
theorem resolve_notFound_iff_witness :
    lookupRoute (canonicalHost "MANGO.COM") = some "site-mango" ∧
    resolve "MANGO.COM" = .found (canonicalHost "MANGO.COM") "site-mango" :=
  ⟨by decide, (resolve_notFound_iff "MANGO.COM").2 "site-mango" (by decide)⟩

/-- Claim C4: with the fixed route table, a GET `/` request with host
`"mango.com"` yields 200 and the mango JSON body, host `"APPLE.COM:443"`
yields 200 and the apple JSON body, and host `"notmango.com"` yields 404
(JSON bodies as written by `json.Encoder.Encode`, which appends `\n`). -/
theorem gateway_routing_examples (now : String) :
    serveGateway "GET" "/" "mango.com" now =
      ⟨200, "\x7b\"host\":\"mango.com\",\"route\":\"site-mango\"\x7d\n"⟩ ∧
    serveGateway "GET" "/" "APPLE.COM:443" now =
      ⟨200, "\x7b\"host\":\"apple.com\",\"route\":\"site-apple\"\x7d\n"⟩ ∧
    (serveGateway "GET" "/" "notmango.com" now).status = 404 :=
  ⟨rfl, rfl, rfl⟩

/-- Claim C5, counterexample: on `"[[::1]]"` the code's
`strings.Trim(host, "[]")` removes BOTH bracket pairs and yields `"::1"`,
whereas stripping a single surrounding pair (the claim's wording) would
yield `"[::1]"`. -/
theorem bracket_trim_single_pair_cex :
    canonicalHost "[[::1]]" ≠
      ⟨stripOnePairSpec (hostBeforeBracketTrim "[[::1]]").data⟩ := by decide

/-- Claim C5, amended: after trimming, lowercasing and optional port
removal, the canonicalizer removes the maximal leading run and the
maximal trailing run of `'['`/`']'` characters from the resulting host
(`strings.Trim` with cutset `"[]"`), not just one surrounding pair: the
removed prefix and suffix consist of bracket characters only, and the
remaining output neither starts nor ends with a bracket character, so
the removed runs are maximal. -/
theorem bracket_trim_all_edges_amended (x : String) :
    ∃ pre post,
      (∀ c ∈ pre, isBracketChar c = true) ∧ (∀ c ∈ post, isBracketChar c = true) ∧
      (hostBeforeBracketTrim x).data = pre ++ (canonicalHost x).data ++ post ∧
      (∀ c, (canonicalHost x).data.head? = some c → isBracketChar c = false) ∧
      (∀ c, (canonicalHost x).data.getLast? = some c → isBracketChar c = false) := by
  obtain ⟨pre, post, hpre, hpost, hdec⟩ :=
    trimCut_decomp isBracketChar (hostBeforeBracketTrim x).data
  refine ⟨pre, post, hpre, hpost, ?_,
    fun c hc => canonList_head_not_bracket x.data c hc,
    fun c hc => canonList_getLast_not_bracket x.data c hc⟩
  rw [canonList_eq_trim_hostBefore]
  exact hdec

/-- Claim C5, witness for the amended theorem at `"[[::1]]"`, where the
pre-trim host is `"[[::1]]"` itself and both double bracket runs are
removed, leaving `"::1"`. -/
theorem bracket_trim_all_edges_amended_witness :
    (hostBeforeBracketTrim "[[::1]]").data = ("[[::1]]" : String).data ∧
    (canonicalHost "[[::1]]").data = ("::1" : String).data ∧
    (∃ pre post,
      (∀ c ∈ pre, isBracketChar c = true) ∧ (∀ c ∈ post, isBracketChar c = true) ∧
      (hostBeforeBracketTrim "[[::1]]").data =
        pre ++ (canonicalHost "[[::1]]").data ++ post ∧
      (∀ c, (canonicalHost "[[::1]]").data.head? = some c → isBracketChar c = false) ∧
      (∀ c, (canonicalHost "[[::1]]").data.getLast? = some c → isBracketChar c = false)) :=
  ⟨by decide, by decide, bracket_trim_all_edges_amended "[[::1]]"⟩

/-- Claim C6, counterexample: `"[::1]"` fails structured host-port
parsing, yet the canonicalizer does NOT return the trimmed, lowercased
input unchanged — the fallback also strips the surrounding brackets. -/
theorem fallback_unchanged_cex :
    preCanon ("[::1]" : String).data = ("[::1]" : String).data ∧
    splitHostPort (("[::1]" : String).data) = none ∧
    canonicalHost "[::1]" ≠ "[::1]" := by decide

/-- Claim C6, amended: when structured host-port parsing fails, the
canonicalizer returns the trimmed, lowercased input with its leading and
trailing `'['`/`']'` characters removed (totality holds by construction:
`canonicalHost` is a total function). -/
theorem fallback_bracket_trim_amended (x : String)
    (h : splitHostPort (preCanon x.data) = none) :
    (canonicalHost x).data = trimCut isBracketChar (preCanon x.data) := by
  show canonList x.data = _
  unfold canonList
  by_cases hp : preCanon x.data = []
  · rw [if_pos hp, hp]
    rfl
  · rw [if_neg hp, h]

/-- Claim C6, witness for the amended theorem at `"[::1]"`. -/
theorem fallback_bracket_trim_amended_witness :
    splitHostPort (preCanon ("[::1]" : String).data) = none ∧
    (canonicalHost "[::1]").data =
      trimCut isBracketChar (preCanon ("[::1]" : String).data) :=
  ⟨by decide, fallback_bracket_trim_amended "[::1]" (by decide)⟩

/-- Claim C7: for every input, the canonicalizer's output contains no
uppercase ASCII letter (the spec scopes case-folding to ASCII). -/
theorem canonicalize_lowercase (x : String) (c : Char)
    (h : c ∈ (canonicalHost x).data) : c.isUpper = false :=
  canonList_not_upper x.data c h

/-- Claim C7, witness at `"MANGO.COM"` and the character `'m'`. -/
theorem canonicalize_lowercase_witness :
    'm' ∈ (canonicalHost "MANGO.COM").data ∧ 'm'.isUpper = false :=
  ⟨by decide, canonicalize_lowercase "MANGO.COM" 'm' (by decide)⟩

/-- Claim C8 (code bug): the echo service's handler calls `fmt.Printf`,
which writes `"This is the mango application"` to the process's standard
output and leaves the HTTP response body empty, contradicting the spec
and the repository's own integration test, which reads the response body
and expects that exact text. -/
theorem echo_body_empty_bug :
    serveEcho (appNameOf "mango") "GET" "/" =
      ⟨200, "", "This is the mango application"⟩ ∧
    (serveEcho (appNameOf "mango") "GET" "/").body ≠
      "This is the mango application" :=
  ⟨rfl, by decide⟩

/-- Claim C9, counterexample: a GET request to a path other than
`/health` or `/` does NOT yield the platform default 404/405; the mux
pattern `GET /` matches every path, so the request reaches the routing
resolver and here returns 200 with a routing body. -/
theorem gateway_subtree_dispatch_cex :
    serveGateway "GET" "/not-a-registered-path" "mango.com" "t" =
      ⟨200, encodeHostResponse "mango.com" "site-mango"⟩ ∧
    (serveGateway "GET" "/not-a-registered-path" "mango.com" "t").status ≠ 404 ∧
    (serveGateway "GET" "/not-a-registered-path" "mango.com" "t").status ≠ 405 :=
  ⟨rfl, by decide, by decide⟩

/-- Claim C9, amended: non-GET/HEAD methods yield the mux's 405 on every
path, and every GET/HEAD request to a path other than `/health` is
dispatched to the root routing handler (the `GET /` pattern is a subtree
pattern matching every path), so it does reach the routing resolver. -/
theorem gateway_dispatch_amended (method path host now : String) :
    (isGetLike method = false →
      serveGateway method path host now = ⟨405, "Method Not Allowed\n"⟩) ∧
    (path ≠ "/health" → isGetLike method = true →
      serveGateway method path host now =
        match resolve host with
        | .found k r => ⟨200, encodeHostResponse k r⟩
        | .notFound => ⟨404, "404 page not found\n"⟩) := by
  constructor
  · intro hm
    unfold serveGateway
    by_cases hp : path = "/health"
    · rw [if_pos hp, if_neg (by simp [hm])]
    · rw [if_neg hp, if_neg (by simp [hm])]
  · intro hp hm
    unfold serveGateway
    rw [if_neg hp, if_pos hm]

/-- Claim C9, witness: a POST to `/` gets 405, and a GET to `/other`
reaches the resolver and returns the mango routing response. -/
theorem gateway_dispatch_amended_witness :
    serveGateway "POST" "/" "mango.com" "t" = ⟨405, "Method Not Allowed\n"⟩ ∧
    serveGateway "GET" "/other" "mango.com" "t" =
      ⟨200, encodeHostResponse "mango.com" "site-mango"⟩ :=
  ⟨(gateway_dispatch_amended "POST" "/" "mango.com" "t").1 (by decide), by
    have h := (gateway_dispatch_amended "GET" "/other" "mango.com" "t").2
      (by decide) (by decide)
    rw [h]
    rfl⟩

/-- Claim C10: the canonicalizer's output never begins and never ends
with a `'['` or `']'` character, because both the port-split branch and
the fallback branch end in the bracket trim. -/
theorem canonicalize_no_edge_brackets (x : String) (c : Char) :
    ((canonicalHost x).data.head? = some c → isBracketChar c = false) ∧
    ((canonicalHost x).data.getLast? = some c → isBracketChar c = false) :=
  ⟨canonList_head_not_bracket x.data c, canonList_getLast_not_bracket x.data c⟩

/-- Claim C10, witness at `"[::1]:8080"`, whose output `"::1"` starts
with `':'`. -/
theorem canonicalize_no_edge_brackets_witness :
    (canonicalHost "[::1]:8080").data.head? = some ':' ∧
    isBracketChar ':' = false :=
  ⟨by decide, (canonicalize_no_edge_brackets "[::1]:8080" ':').1 (by decide)⟩

end GoadBalancer
